import Mathlib

/-!
Verification of the Tulpar autopost pipeline and payment subsystem.

Shallow embedding of the relevant Python modules:
* `src/autopost/core/price_converter.py` (pretty-price rounding)
* `src/autopost/pipeline/daily_pipeline.py` (stages 2, 3, 7, 9)
* `src/autopost/core/product_filter.py` (source balancing)
* `src/autopost/services/currency.py` (rate lookup)
* `src/autopost/services/payment.py` (HMAC signing, status decoding)
* `src/handlers/payment.py` (payment finalisation)

`Decimal` values are embedded as significand/exponent pairs with the default
context's rounding to 28 significant digits; the places where the source
converts a `Decimal` to a binary64 `float` are embedded with an explicit
IEEE-754 round-to-nearest-even model.
-/

namespace Tulpar

/-! ## Arbitrary-precision decimals and binary64 floats

`decimal.Decimal` values are significand/exponent pairs `m * 10^e`; the
default context rounds every arithmetic result to 28 significant digits with
`ROUND_HALF_EVEN`.  CPython `float` values are `m * 2^e` with a 53-bit
significand; every arithmetic operation is correctly rounded
(round-to-nearest, ties-to-even).  Both rounders share `sigRound`.
Overflow/subnormal thresholds are never reached at the magnitudes the
pipeline handles and are not modelled. -/

/-- Fuel-driven digit count: `digLenAux β fuel n` is the number of base-`β`
digits of `n`, provided `fuel ≥ n`. -/
def digLenAux (β : ℕ) : ℕ → ℕ → ℕ
  | 0, _ => 0
  | fuel + 1, n => if n = 0 then 0 else digLenAux β fuel (n / β) + 1

/-- Number of base-`β` digits of `n` (0 for 0). -/
def digLen (β n : ℕ) : ℕ := digLenAux β n n

/-- Greatest `e : ℤ` with `β^e ≤ n / d`, for `n, d > 0`, `β ≥ 2`. -/
def ratFloorLog (β n d : ℕ) : ℤ :=
  let e0 : ℤ := (digLen β n : ℤ) - (digLen β d : ℤ)
  if 0 ≤ e0 then
    (if d * β ^ e0.toNat ≤ n then e0 else e0 - 1)
  else
    (if d ≤ n * β ^ (-e0).toNat then e0 else e0 - 1)

/-- Round the positive rational `n / d` to `prec` significant base-`β` digits
(round-to-nearest, ties-to-even).  Returns `(m, e)` with value `m * β^e` and
`β^(prec-1) ≤ m ≤ β^prec`. -/
def sigRoundPos (β prec n d : ℕ) : ℕ × ℤ :=
  let e := ratFloorLog β n d
  let t : ℤ := (prec : ℤ) - 1 - e
  let N := if 0 ≤ t then n * β ^ t.toNat else n
  let D := if 0 ≤ t then d else d * β ^ (-t).toNat
  let q := N / D
  let r := N % D
  let m := if 2 * r < D then q
           else if D < 2 * r then q + 1
           else (if q % 2 = 0 then q else q + 1)
  (m, e - (prec : ℤ) + 1)

/-- Signed version of `sigRoundPos` (`b > 0`). -/
def sigRound (β prec : ℕ) (a : ℤ) (b : ℕ) : ℤ × ℤ :=
  if a = 0 then (0, 0)
  else
    let p := sigRoundPos β prec a.natAbs b
    (if 0 ≤ a then (p.1 : ℤ) else -(p.1 : ℤ), p.2)

/-- A `decimal.Decimal` value `m * 10^e`. -/
structure Dec where
  m : ℤ
  e : ℤ
  deriving DecidableEq, Repr

/-- A CPython binary64 `float` value `m * 2^e`. -/
structure Fl where
  m : ℤ
  e : ℤ
  deriving DecidableEq, Repr

/-- Exact rational value of a `Dec`. -/
def Dec.val (x : Dec) : ℚ := (x.m : ℚ) * (10 : ℚ) ^ x.e

/-- Exact rational value of an `Fl`. -/
def Fl.val (x : Fl) : ℚ := (x.m : ℚ) * (2 : ℚ) ^ x.e

/-- `Decimal * Decimal` under the default context (28 significant digits,
half-even). -/
def decMul (x y : Dec) : Dec :=
  let p := sigRound 10 28 (x.m * y.m) 1
  ⟨p.1, p.2 + x.e + y.e⟩

/-- `Decimal / Decimal` under the default context (28 significant digits,
half-even). -/
def decDiv (x y : Dec) : Dec :=
  let s : ℤ := if y.m < 0 then -x.m else x.m
  let p := sigRound 10 28 s y.m.natAbs
  ⟨p.1, p.2 + x.e - y.e⟩

/-- Round `a / b` (`b > 0`) to the nearest integer, ties to even.
`/` and `%` are E-division, so `a / b = ⌊a/b⌋` and `a % b ∈ [0, b)`. -/
def halfEvenIntDiv (a : ℤ) (b : ℕ) : ℤ :=
  let q := a / (b : ℤ)
  let r := a % (b : ℤ)
  if 2 * r < (b : ℤ) then q
  else if (b : ℤ) < 2 * r then q + 1
  else (if q % 2 = 0 then q else q + 1)

/-- Python `round(x, -1)` on a `Decimal`: quantize to exponent 1 with
`ROUND_HALF_EVEN` (result is a multiple of ten). -/
def decRoundTens (x : Dec) : Dec :=
  if 1 ≤ x.e then ⟨x.m * 10 ^ (x.e - 1).toNat, 1⟩
  else ⟨halfEvenIntDiv x.m (10 ^ (1 - x.e).toNat), 1⟩

/-- Python `float(d)` on a `Decimal`: correctly rounded binary64. -/
def floatOfDec (x : Dec) : Fl :=
  if 0 ≤ x.e then
    let p := sigRound 2 53 (x.m * 10 ^ x.e.toNat) 1
    ⟨p.1, p.2⟩
  else
    let p := sigRound 2 53 x.m (10 ^ (-x.e).toNat)
    ⟨p.1, p.2⟩

/-- Python float subtraction `1 - x` (correctly rounded). -/
def flOneSub (x : Fl) : Fl :=
  if 0 ≤ x.e then
    let p := sigRound 2 53 (1 - x.m * 2 ^ x.e.toNat) 1
    ⟨p.1, p.2⟩
  else
    let p := sigRound 2 53 (2 ^ (-x.e).toNat - x.m) (2 ^ (-x.e).toNat)
    ⟨p.1, p.2⟩

/-- Python float multiplication `x * 100` (correctly rounded). -/
def flMul100 (x : Fl) : Fl :=
  if 0 ≤ x.e then
    let p := sigRound 2 53 (100 * x.m * 2 ^ x.e.toNat) 1
    ⟨p.1, p.2⟩
  else
    let p := sigRound 2 53 (100 * x.m) (2 ^ (-x.e).toNat)
    ⟨p.1, p.2⟩

/-- Python `int(x)` on a float: truncate toward zero. -/
def pyTruncFl (x : Fl) : ℤ :=
  if 0 ≤ x.e then x.m * 2 ^ x.e.toNat
  else if 0 ≤ x.m then x.m / 2 ^ (-x.e).toNat
  else -((-x.m) / 2 ^ (-x.e).toNat)

/-! ## price_converter.py -/

/-- `PRETTY_PRICES` list from `src/autopost/core/price_converter.py`. -/
def PRETTY_PRICES : List ℤ :=
  [29, 49, 59, 79, 99,
   149, 199, 249, 299,
   349, 399, 449, 499,
   599, 699, 799, 899, 999,
   1199, 1299, 1499, 1699, 1999,
   2499, 2999, 3499, 3999,
   4499, 4999, 5999, 6999,
   7999, 8999, 9999,
   11999, 12999, 14999, 16999, 19999,
   24999, 29999, 34999, 39999, 49999]

/-- `MAX_PRETTY_PRICE = PRETTY_PRICES[-1]`. -/
def MAX_PRETTY_PRICE : ℤ := 49999

/-- Ceiling integer division `⌈a / b⌉` for `b > 0`. -/
def intCeilDiv (a : ℤ) (b : ℕ) : ℤ := -((-a) / (b : ℤ))

/-- `Decimal.quantize(Decimal("0.01"), ROUND_CEILING)`: round up to two
fractional digits.  (The `InvalidOperation` overflow this raises for
magnitudes `≥ 10^26` is not modelled.) -/
def decQuantize2Ceil (x : Dec) : Dec :=
  if 0 ≤ x.e + 2 then ⟨x.m * 10 ^ (x.e + 2).toNat, -2⟩
  else ⟨intCeilDiv x.m (10 ^ (-(x.e + 2)).toNat), -2⟩

/-- `Decimal.to_integral_value(rounding=ROUND_CEILING)`: the ceiling of the
represented value. -/
def decCeil (x : Dec) : ℤ :=
  if 0 ≤ x.e then x.m * 10 ^ x.e.toNat
  else intCeilDiv x.m (10 ^ (-x.e).toNat)

/-- `PriceConverter.convert`: the `Decimal` product — rounded by the default
context to 28 significant digits half-even (`decMul`) — quantized to `0.01`
with `ROUND_CEILING`. -/
def convert (price_cny rate : Dec) : Dec :=
  decQuantize2Ceil (decMul price_cny rate)

/-- `PriceConverter.round_to_pretty`: ceiling to an integer, return the first
pretty price `≥` it, and above the list maximum round to the next thousand
minus one (`(price_int // 1000 + 1) * 1000 - 1`; Python `//` is floor
division, which agrees with `Int.ediv` for the positive divisor `1000`). -/
def round_to_pretty (price : Dec) : ℤ :=
  let price_int : ℤ := decCeil price
  if price_int ≤ 0 then 29
  else
    match PRETTY_PRICES.find? (fun pretty => price_int ≤ pretty) with
    | some pretty => pretty
    | none => (price_int / 1000 + 1) * 1000 - 1

/-- `PriceConverter.convert_and_round`. -/
def convert_and_round (price_cny rate : Dec) : ℤ :=
  round_to_pretty (convert price_cny rate)

theorem find?_le_of_mem_of_sorted {l : List ℤ} (hs : l.Pairwise (· ≤ ·)) {pi q : ℤ}
    (h : l.find? (fun x => decide (pi ≤ x)) = some q) :
    ∀ x ∈ l, pi ≤ x → q ≤ x := by
  induction l with
  | nil => simp at h
  | cons a t ih =>
    rcases List.pairwise_cons.mp hs with ⟨ha, ht⟩
    by_cases hpa : pi ≤ a
    · rw [List.find?_cons_of_pos _ (by simpa using hpa)] at h
      obtain rfl : a = q := by simpa using h
      intro x hx _
      rcases List.mem_cons.mp hx with rfl | hx
      · exact le_refl x
      · exact ha x hx
    · rw [List.find?_cons_of_neg _ (by simpa using hpa)] at h
      intro x hx hpx
      rcases List.mem_cons.mp hx with rfl | hx
      · exact absurd hpx hpa
      · exact ih ht h x hx hpx

theorem pretty_prices_sorted : PRETTY_PRICES.Pairwise (· ≤ ·) := by decide

theorem pretty_prices_le_max : ∀ x ∈ PRETTY_PRICES, x ≤ MAX_PRETTY_PRICE := by decide

theorem pow_toNat_eq_zpow (b : ℚ) (e : ℤ) (he : 0 ≤ e) :
    b ^ e.toNat = b ^ e := by
  rw [← zpow_natCast, Int.toNat_of_nonneg he]

theorem intCeilDiv_bounds (a : ℤ) (b : ℕ) (hb : 0 < b) :
    (a : ℚ) / (b : ℚ) ≤ (intCeilDiv a b : ℚ) ∧
    (intCeilDiv a b : ℚ) < (a : ℚ) / (b : ℚ) + 1 := by
  have hbq : (0 : ℚ) < (b : ℚ) := by positivity
  have hbne : (b : ℤ) ≠ 0 := by exact_mod_cast hb.ne'
  set q := (-a) / (b : ℤ) with hqdef
  set r := (-a) % (b : ℤ) with hrdef
  have hr0 : (0 : ℤ) ≤ r := Int.emod_nonneg (-a) hbne
  have hrb : r < (b : ℤ) := Int.emod_lt_of_pos (-a) (by exact_mod_cast hb)
  have hqr : -a = q * (b : ℤ) + r := by
    rw [hqdef, hrdef, mul_comm]
    exact (Int.ediv_add_emod (-a) (b : ℤ)).symm
  have haq : (a : ℚ) = -((q : ℚ) * (b : ℚ)) - (r : ℚ) := by
    have : (a : ℤ) = -(q * (b : ℤ)) - r := by omega
    exact_mod_cast this
  have hdiv : (a : ℚ) / (b : ℚ) = -(q : ℚ) - (r : ℚ) / (b : ℚ) := by
    rw [haq]
    field_simp
  have hic : (intCeilDiv a b : ℚ) = -(q : ℚ) := by
    unfold intCeilDiv
    push_cast [hqdef]
    ring
  have hf0 : (0 : ℚ) ≤ (r : ℚ) / (b : ℚ) :=
    div_nonneg (by exact_mod_cast hr0) hbq.le
  have hf1 : (r : ℚ) / (b : ℚ) < 1 :=
    (div_lt_one hbq).mpr (by exact_mod_cast hrb)
  rw [hic, hdiv]
  constructor <;> linarith

theorem decCeil_eq_ceil_val (x : Dec) : decCeil x = ⌈x.val⌉ := by
  unfold decCeil Dec.val
  split_ifs with h
  · rw [← pow_toNat_eq_zpow 10 x.e h]
    rw [show (x.m : ℚ) * (10 : ℚ) ^ x.e.toNat = ((x.m * 10 ^ x.e.toNat : ℤ) : ℚ)
      from by push_cast; ring]
    exact (Int.ceil_intCast _).symm
  · have hk : (((10 : ℕ) ^ (-x.e).toNat : ℕ) : ℚ) = (10 : ℚ) ^ ((-x.e : ℤ)) := by
      push_cast
      exact pow_toNat_eq_zpow 10 (-x.e) (by omega)
    have hval : (x.m : ℚ) * (10 : ℚ) ^ x.e =
        (x.m : ℚ) / (((10 : ℕ) ^ (-x.e).toNat : ℕ) : ℚ) := by
      rw [hk, div_eq_mul_inv, ← zpow_neg, neg_neg]
    rw [hval]
    have hb : 0 < (10 : ℕ) ^ (-x.e).toNat := Nat.pos_pow_of_pos _ (by norm_num)
    obtain ⟨h1, h2⟩ := intCeilDiv_bounds x.m ((10 : ℕ) ^ (-x.e).toNat) hb
    exact (Int.ceil_eq_iff.mpr ⟨by push_cast at h2 ⊢; linarith,
      by push_cast at h1 ⊢; linarith⟩).symm

theorem decQuantize2Ceil_ge (x : Dec) : x.val ≤ (decQuantize2Ceil x).val := by
  unfold decQuantize2Ceil
  split_ifs with h
  · apply le_of_eq
    unfold Dec.val
    push_cast
    rw [pow_toNat_eq_zpow 10 (x.e + 2) h, mul_assoc,
      ← zpow_add₀ (by norm_num : (10 : ℚ) ≠ 0)]
    rw [show x.e + 2 + (-2) = x.e from by ring]
  · set k : ℕ := (-(x.e + 2)).toNat with hkdef
    have hke : (k : ℤ) = -(x.e + 2) := by
      rw [hkdef]
      exact Int.toNat_of_nonneg (by omega)
    have hb : 0 < (10 : ℕ) ^ k := Nat.pos_pow_of_pos _ (by norm_num)
    have h1 := (intCeilDiv_bounds x.m ((10 : ℕ) ^ k) hb).1
    have hval : x.val = ((x.m : ℚ) / (((10 : ℕ) ^ k : ℕ) : ℚ)) * (10 : ℚ) ^ ((-2 : ℤ)) := by
      unfold Dec.val
      have hcast : (((10 : ℕ) ^ k : ℕ) : ℚ) = (10 : ℚ) ^ ((k : ℤ)) := by
        push_cast
        exact (zpow_natCast (10 : ℚ) k).symm
      rw [hcast, div_eq_mul_inv, ← zpow_neg, mul_assoc,
        ← zpow_add₀ (by norm_num : (10 : ℚ) ≠ 0)]
      rw [show -(k : ℤ) + -2 = x.e from by omega]
    have hnewval : (Dec.mk (intCeilDiv x.m (10 ^ k)) (-2)).val =
        (intCeilDiv x.m (10 ^ k) : ℚ) * (10 : ℚ) ^ ((-2 : ℤ)) := rfl
    rw [hval, hnewval]
    exact mul_le_mul_of_nonneg_right h1 (by positivity)

set_option maxRecDepth 100000 in
/-- **C1, counterexample.**  The default `Decimal` context rounds the product
`price_cny * rate` to 28 significant digits *before* the ceiling quantize, and
that rounding can go down: at `price_native = 49999.000000000000000000000000001`
(a valid positive `RawProduct.price_cny`) and `rate = 1`, the program yields
`price_local = 49999`, strictly below `⌈price_native * rate⌉ = 50000`. -/
theorem C1_context_rounding_counterexample :
    (0 : ℚ) < (Dec.mk 49999000000000000000000000000001 (-27)).val ∧
    (0 : ℚ) < (Dec.mk 1 0).val ∧
    convert_and_round ⟨49999000000000000000000000000001, -27⟩ ⟨1, 0⟩ = 49999 ∧
    ⌈(Dec.mk 49999000000000000000000000000001 (-27)).val * (Dec.mk 1 0).val⌉ =
      50000 := by
  refine ⟨?_, ?_, by decide, ?_⟩
  · unfold Dec.val
    positivity
  · unfold Dec.val
    positivity
  · have hv : (Dec.mk 49999000000000000000000000000001 (-27)).val *
        (Dec.mk 1 0).val =
        (49999000000000000000000000000001 : ℚ) / 10 ^ (27 : ℕ) := by
      unfold Dec.val
      rw [show ((-27 : ℤ)) = -((27 : ℕ) : ℤ) from by norm_num, zpow_neg,
        zpow_natCast]
      norm_num
    rw [hv]
    exact Int.ceil_eq_iff.mpr (by norm_num)

/-- **C1, amended.**  For every positive `price_native` and positive `rate`
(so that the context-rounded `Decimal` product is positive), the Stage 2
local price is at least the ceiling of the *context-rounded* product
`price_native ⊗ rate` (28 significant digits, half-even) — and hence at least
`⌈price_native * rate⌉` whenever that multiplication is exact, in particular
for all inputs of at most 14 significant digits each; it lies in the pretty
list or in `{k*1000 - 1}`, is the least pretty-list entry `≥` the
ceiling-rounded converted value whenever such an entry exists, and above the
list maximum it is the next thousand minus one. -/
theorem C1_pretty_price_amended (p r : Dec)
    (hP : 0 < (decMul p r).val) :
    (⌈(decMul p r).val⌉ ≤ convert_and_round p r) ∧
    ((decMul p r).val = p.val * r.val →
      ⌈p.val * r.val⌉ ≤ convert_and_round p r) ∧
    (convert_and_round p r ∈ PRETTY_PRICES ∨
      ∃ k : ℕ, convert_and_round p r = 1000 * (k : ℤ) - 1) ∧
    (decCeil (convert p r) ≤ convert_and_round p r) ∧
    (∀ q ∈ PRETTY_PRICES, decCeil (convert p r) ≤ q → convert_and_round p r ≤ q) ∧
    (MAX_PRETTY_PRICE < decCeil (convert p r) →
      convert_and_round p r = (decCeil (convert p r) / 1000 + 1) * 1000 - 1) := by
  have hcv : (decMul p r).val ≤ (convert p r).val := decQuantize2Ceil_ge _
  have hd : decCeil (convert p r) = ⌈(convert p r).val⌉ := decCeil_eq_ceil_val _
  have hceilP : ⌈(decMul p r).val⌉ ≤ decCeil (convert p r) := by
    rw [hd]
    exact Int.ceil_le_ceil hcv
  have hpos : 0 < decCeil (convert p r) :=
    lt_of_lt_of_le (Int.ceil_pos.mpr hP) hceilP
  have hsplit :
      (⌈(decMul p r).val⌉ ≤ convert_and_round p r) ∧
      (convert_and_round p r ∈ PRETTY_PRICES ∨
        ∃ k : ℕ, convert_and_round p r = 1000 * (k : ℤ) - 1) ∧
      (decCeil (convert p r) ≤ convert_and_round p r) ∧
      (∀ q ∈ PRETTY_PRICES, decCeil (convert p r) ≤ q →
        convert_and_round p r ≤ q) ∧
      (MAX_PRETTY_PRICE < decCeil (convert p r) →
        convert_and_round p r = (decCeil (convert p r) / 1000 + 1) * 1000 - 1) := by
    unfold convert_and_round round_to_pretty
    rw [if_neg (by omega)]
    cases hfind : PRETTY_PRICES.find? (fun x => decide (decCeil (convert p r) ≤ x)) with
    | some q =>
      dsimp only
      have hq : decCeil (convert p r) ≤ q := by simpa using List.find?_some hfind
      have hmem : q ∈ PRETTY_PRICES := List.mem_of_find?_eq_some hfind
      have hqmax : q ≤ MAX_PRETTY_PRICE := pretty_prices_le_max q hmem
      refine ⟨by omega, Or.inl hmem, hq,
        fun x hx hpx => find?_le_of_mem_of_sorted pretty_prices_sorted hfind x hx hpx,
        fun hmax => absurd (lt_of_le_of_lt hqmax hmax) (not_lt.mpr hq)⟩
    | none =>
      dsimp only
      have hnone : ∀ x ∈ PRETTY_PRICES, ¬ (decCeil (convert p r) ≤ x) := by
        intro x hx
        have := List.find?_eq_none.mp hfind x hx
        simpa using this
      have h49999 : MAX_PRETTY_PRICE < decCeil (convert p r) := by
        have := hnone 49999 (by decide)
        unfold MAX_PRETTY_PRICE
        omega
      have hbound : decCeil (convert p r) ≤
          (decCeil (convert p r) / 1000 + 1) * 1000 - 1 := by omega
      refine ⟨by omega, Or.inr ⟨(decCeil (convert p r) / 1000 + 1).toNat, by omega⟩,
        hbound, fun x hx hpx => absurd hpx (hnone x hx), fun _ => rfl⟩
  exact ⟨hsplit.1, fun hex => hex ▸ hsplit.1, hsplit.2⟩

/-- Witness for `C1_pretty_price_amended` at the spec scenario-D input
`price_native = Decimal("1.01")`, `rate = Decimal(12)` (raw `12.12`,
pretty `29`); the `Decimal` product is exact there. -/
theorem C1_pretty_price_amended_witness :
    (0 : ℚ) < (decMul ⟨101, -2⟩ ⟨12, 0⟩).val ∧
    (decMul ⟨101, -2⟩ ⟨12, 0⟩).val = (Dec.mk 101 (-2)).val * (Dec.mk 12 0).val ∧
    ⌈(Dec.mk 101 (-2)).val * (Dec.mk 12 0).val⌉ ≤
      convert_and_round ⟨101, -2⟩ ⟨12, 0⟩ := by
  have hmul : decMul ⟨101, -2⟩ ⟨12, 0⟩ =
      ⟨1212000000000000000000000000, -26⟩ := by decide
  have hP : (0 : ℚ) < (decMul ⟨101, -2⟩ ⟨12, 0⟩).val := by
    rw [hmul]
    unfold Dec.val
    positivity
  have hex : (decMul ⟨101, -2⟩ ⟨12, 0⟩).val =
      (Dec.mk 101 (-2)).val * (Dec.mk 12 0).val := by
    rw [hmul]
    unfold Dec.val
    norm_num
  exact ⟨hP, hex, (C1_pretty_price_amended ⟨101, -2⟩ ⟨12, 0⟩ hP).2.1 hex⟩

/-! ## models/product.py -/

/-- `RawProduct` pydantic model (`src/autopost/models/product.py`).
`source` defaults to `"pinduoduo"`. -/
structure RawProduct where
  id : String
  title : String
  price_cny : Dec
  image_url : String
  rating : ℚ
  discount : ℤ
  sales_count : ℤ
  source : String := "pinduoduo"
  deriving DecidableEq, Repr

/-- `Product` pydantic model.  `old_price_kgs` defaults to `Decimal("0")` and
`source` defaults to `"pinduoduo"`. -/
structure Product where
  id : String
  title : String
  price_cny : Dec
  price_kgs : Dec
  old_price_kgs : Dec := ⟨0, 0⟩
  image_url : String
  rating : ℚ
  discount : ℤ
  sales_count : ℤ
  source : String := "pinduoduo"
  deriving DecidableEq, Repr

/-- `Product.from_raw`: copies every field, including `source`, and sets
`price_kgs`; `old_price_kgs` is not passed, so its default applies. -/
def Product.from_raw (raw : RawProduct) (price_kgs : Dec) : Product :=
  { id := raw.id, title := raw.title, price_cny := raw.price_cny,
    price_kgs := price_kgs, image_url := raw.image_url, rating := raw.rating,
    discount := raw.discount, sales_count := raw.sales_count,
    source := raw.source }

/-- `PriceConverter.convert_product`: `from_raw` with the pretty-rounded KGS
price (an integral `Decimal`). -/
def convert_product (raw : RawProduct) (rate : Dec) : Product :=
  Product.from_raw raw ⟨convert_and_round raw.price_cny rate, 0⟩

/-! ## daily_pipeline.py, Stage 2 (`_convert_prices`, lines 641-663) -/

/-- The per-product enhancement loop body of `DailyPipeline._convert_prices`:
`old_price = round(price_kgs * markup, -1)`,
`discount = int((1 - float(price_kgs / old_price)) * 100)`, and a new
`Product(...)` built without the `source` keyword (so the field default
`"pinduoduo"` applies). -/
def enhance_product (product : Product) (markup : Dec) : Product :=
  let old_price := decRoundTens (decMul product.price_kgs markup)
  let discount :=
    pyTruncFl (flMul100 (flOneSub (floatOfDec (decDiv product.price_kgs old_price))))
  { id := product.id, title := product.title, price_cny := product.price_cny,
    price_kgs := product.price_kgs, old_price_kgs := old_price,
    image_url := product.image_url, rating := product.rating,
    discount := discount, sales_count := product.sales_count }

/-- **C9.** Stage 2 does not preserve `source`: even though
`Product.from_raw` copies it, the enhanced `Product` constructed in
`_convert_prices` omits the `source` argument, so every enhanced product —
including one converted from a raw product with `source = "taobao"` — carries
the field default `"pinduoduo"`. -/
theorem C9_stage2_loses_source (raw : RawProduct) (rate : Dec) (markup : Dec) :
    (enhance_product (convert_product raw rate) markup).source = "pinduoduo" ∧
    (convert_product raw rate).source = raw.source := by
  exact ⟨rfl, rfl⟩

/-! ## Stage 2 `old_price` and `discount` (claim C2) -/

theorem halfEvenIntDiv_dist (a : ℤ) (b : ℕ) (hb : 0 < b) :
    |(halfEvenIntDiv a b : ℚ) - (a : ℚ) / (b : ℚ)| ≤ 1 / 2 := by
  have hbq : (0 : ℚ) < (b : ℚ) := by positivity
  have hbne : (b : ℤ) ≠ 0 := by exact_mod_cast hb.ne'
  set q := a / (b : ℤ) with hqdef
  set r := a % (b : ℤ) with hrdef
  have hr0 : (0 : ℤ) ≤ r := Int.emod_nonneg a hbne
  have hrb : r < (b : ℤ) := Int.emod_lt_of_pos a (by exact_mod_cast hb)
  have hqr : a = q * (b : ℤ) + r := by
    rw [hqdef, hrdef, mul_comm]
    exact (Int.ediv_add_emod a (b : ℤ)).symm
  have hdiv : (a : ℚ) / (b : ℚ) = (q : ℚ) + (r : ℚ) / (b : ℚ) := by
    have habq : (a : ℚ) = (q : ℚ) * (b : ℚ) + (r : ℚ) := by exact_mod_cast hqr
    rw [habq]
    field_simp
  have hf0 : (0 : ℚ) ≤ (r : ℚ) / (b : ℚ) :=
    div_nonneg (by exact_mod_cast hr0) hbq.le
  have hf1 : (r : ℚ) / (b : ℚ) < 1 :=
    (div_lt_one hbq).mpr (by exact_mod_cast hrb)
  simp only [halfEvenIntDiv]
  split_ifs with h1 h2 h3
  · have hc : 2 * ((r : ℚ) / (b : ℚ)) < 1 := by
      rw [← mul_div_assoc, div_lt_one hbq]
      exact_mod_cast h1
    rw [hdiv, show (q : ℚ) - ((q : ℚ) + (r : ℚ) / (b : ℚ)) = -((r : ℚ) / (b : ℚ)) from
      by ring, abs_neg, abs_of_nonneg hf0]
    linarith
  · have hc : 1 < 2 * ((r : ℚ) / (b : ℚ)) := by
      rw [← mul_div_assoc, lt_div_iff hbq, one_mul]
      exact_mod_cast h2
    rw [hdiv, show ((q + 1 : ℤ) : ℚ) - ((q : ℚ) + (r : ℚ) / (b : ℚ)) =
      1 - (r : ℚ) / (b : ℚ) from by push_cast; ring,
      abs_of_nonneg (by linarith)]
    linarith
  · have hc : 2 * ((r : ℚ) / (b : ℚ)) = 1 := by
      rw [← mul_div_assoc, div_eq_one_iff_eq hbq.ne']
      exact_mod_cast (by omega : 2 * r = (b : ℤ))
    rw [hdiv, show (q : ℚ) - ((q : ℚ) + (r : ℚ) / (b : ℚ)) = -((r : ℚ) / (b : ℚ)) from
      by ring, abs_neg, abs_of_nonneg hf0]
    linarith
  · have hc : 2 * ((r : ℚ) / (b : ℚ)) = 1 := by
      rw [← mul_div_assoc, div_eq_one_iff_eq hbq.ne']
      exact_mod_cast (by omega : 2 * r = (b : ℤ))
    rw [hdiv, show ((q + 1 : ℤ) : ℚ) - ((q : ℚ) + (r : ℚ) / (b : ℚ)) =
      1 - (r : ℚ) / (b : ℚ) from by push_cast; ring,
      abs_of_nonneg (by linarith)]
    linarith

theorem decRoundTens_dist (x : Dec) :
    (∃ k : ℤ, (decRoundTens x).val = 10 * (k : ℚ)) ∧
    |(decRoundTens x).val - x.val| ≤ 5 := by
  unfold decRoundTens
  split_ifs with h1
  · refine ⟨⟨x.m * 10 ^ (x.e - 1).toNat, by push_cast [Dec.val]; ring⟩, ?_⟩
    have hv : (Dec.mk (x.m * 10 ^ (x.e - 1).toNat) 1).val = x.val := by
      unfold Dec.val
      have ht : ((x.e - 1).toNat : ℤ) = x.e - 1 := Int.toNat_of_nonneg (by omega)
      push_cast
      rw [show ((10 : ℚ) ^ ((x.e - 1).toNat)) = (10 : ℚ) ^ ((x.e - 1 : ℤ)) from by
        rw [← zpow_natCast, ht]]
      rw [mul_assoc, ← zpow_add₀ (by norm_num : (10:ℚ) ≠ 0)]
      rw [show x.e - 1 + 1 = x.e from by ring]
    rw [hv]
    simp
  · set b : ℕ := 10 ^ (1 - x.e).toNat with hbdef
    have hb : 0 < b := Nat.pos_pow_of_pos _ (by norm_num)
    have hdist := halfEvenIntDiv_dist x.m b hb
    have hbq : ((b : ℕ) : ℚ) = (10 : ℚ) ^ ((1 - x.e).toNat) := by push_cast [hbdef]; ring
    have hx : (x.m : ℚ) / (b : ℚ) = x.val / 10 := by
      unfold Dec.val
      rw [hbq]
      have ht : (((1 - x.e).toNat : ℕ) : ℤ) = 1 - x.e := Int.toNat_of_nonneg (by omega)
      rw [show ((10 : ℚ) ^ ((1 - x.e).toNat)) = (10 : ℚ) ^ ((1 - x.e : ℤ)) from by
        rw [← zpow_natCast, ht]]
      rw [div_eq_div_iff (by positivity) (by norm_num : (10:ℚ) ≠ 0)]
      rw [show (x.m : ℚ) * (10 : ℚ) ^ (x.e : ℤ) * (10 : ℚ) ^ ((1 - x.e : ℤ)) =
        (x.m : ℚ) * ((10 : ℚ) ^ (x.e : ℤ) * (10 : ℚ) ^ ((1 - x.e : ℤ))) from by ring,
        ← zpow_add₀ (by norm_num : (10:ℚ) ≠ 0)]
      rw [show x.e + (1 - x.e) = 1 from by ring, zpow_one]
    refine ⟨⟨halfEvenIntDiv x.m b, by push_cast [Dec.val]; ring⟩, ?_⟩
    have hval : (Dec.mk (halfEvenIntDiv x.m b) 1).val =
        10 * (halfEvenIntDiv x.m b : ℚ) := by
      unfold Dec.val; push_cast; ring
    rw [hval]
    rw [hx] at hdist
    calc |10 * (halfEvenIntDiv x.m b : ℚ) - x.val|
        = |(10 : ℚ)| * |(halfEvenIntDiv x.m b : ℚ) - x.val / 10| := by
          rw [← abs_mul]
          congr 1
          ring
      _ = 10 * |(halfEvenIntDiv x.m b : ℚ) - x.val / 10| := by
          rw [show |(10 : ℚ)| = 10 from abs_of_nonneg (by norm_num)]
      _ ≤ 10 * (1 / 2) := mul_le_mul_of_nonneg_left hdist (by norm_num)
      _ = 5 := by norm_num

/-- A concrete Stage-2 product whose KGS price is the pretty value `39999`
(e.g. `convert_and_round 2917 12 = 39999`). -/
def sampleProduct39999 : Product :=
  { id := "6948#39999", title := "Куртка зимняя", price_cny := ⟨2917, 0⟩,
    price_kgs := ⟨39999, 0⟩, image_url := "https://img.example/1.jpg",
    rating := 24 / 5, discount := 50, sales_count := 1000, source := "taobao" }

/-- A concrete Stage-2 product with KGS price `49` for the amended-claim
witness. -/
def sampleProduct49 : Product :=
  Product.from_raw
    { id := "w", title := "w", price_cny := ⟨35, -1⟩,
      image_url := "https://img.example/w.jpg", rating := 5, discount := 10,
      sales_count := 3 } ⟨49, 0⟩

set_option maxRecDepth 100000 in
/-- **C2, counterexample.**  With `price_local = 39999` (a pretty price) and
sampled markup `1.4925 ∈ [1.30, 1.50]`, the code's `old_price` is `59700`,
but the displayed discount computed through binary64 floats is `32`, while
`floor((1 - price_local/old_price_local) * 100) = 33`: the claimed discount
formula fails. -/
theorem C2_discount_counterexample :
    (39999 : ℤ) ∈ PRETTY_PRICES ∧
    convert_and_round ⟨2917, 0⟩ ⟨12, 0⟩ = 39999 ∧
    (13 : ℚ) / 10 ≤ (Dec.mk 14925 (-4)).val ∧ (Dec.mk 14925 (-4)).val ≤ 3 / 2 ∧
    (enhance_product sampleProduct39999 ⟨14925, -4⟩).old_price_kgs.val = 59700 ∧
    (enhance_product sampleProduct39999 ⟨14925, -4⟩).discount = 32 ∧
    ⌊(1 - (39999 : ℚ) / 59700) * 100⌋ = 33 := by
  refine ⟨by decide, by decide, ?_, ?_, ?_, by decide, ?_⟩
  · norm_num [Dec.val]
  · norm_num [Dec.val]
  · have h : (enhance_product sampleProduct39999 ⟨14925, -4⟩).old_price_kgs =
        ⟨5970, 1⟩ := by decide
    rw [h]
    norm_num [Dec.val]
  · rw [show (1 - (39999 : ℚ) / 59700) * 100 = ((33 : ℤ) : ℚ) from by norm_num]
    exact Int.floor_intCast 33

/-- **C2, amended.**  For every Stage-2 product with an integral (pretty)
`price_kgs ≥ 29` and every markup in `[1.30, 1.50]` whose product with the
price needs no 28-digit rounding, the synthesized `old_price_kgs` is
`price_kgs * markup` rounded half-even to the nearest multiple of ten, and it
is at least `price_kgs`.  (The discount clause of the original claim is
dropped: the code computes `int((1 - float(price/old)) * 100)` through
binary64 arithmetic, which `C2_discount_counterexample` shows can differ from
the exact `floor`.) -/
theorem C2_old_price_amended (product : Product) (markup : Dec) (price : ℤ)
    (hpk : product.price_kgs = ⟨price, 0⟩) (hp : 29 ≤ price)
    (hm1 : 13 / 10 ≤ markup.val) (hm2 : markup.val ≤ 3 / 2)
    (hexact : (decMul product.price_kgs markup).val =
      product.price_kgs.val * markup.val) :
    (∃ k : ℤ, (enhance_product product markup).old_price_kgs.val = 10 * (k : ℚ)) ∧
    |(enhance_product product markup).old_price_kgs.val -
      product.price_kgs.val * markup.val| ≤ 5 ∧
    product.price_kgs.val ≤ (enhance_product product markup).old_price_kgs.val := by
  have hold : (enhance_product product markup).old_price_kgs =
      decRoundTens (decMul product.price_kgs markup) := rfl
  obtain ⟨hmul10, hdist⟩ := decRoundTens_dist (decMul product.price_kgs markup)
  rw [hexact] at hdist
  have hpv : product.price_kgs.val = (price : ℚ) := by
    rw [hpk]; unfold Dec.val; simp
  have hp29 : (29 : ℚ) ≤ (price : ℚ) := by exact_mod_cast hp
  refine ⟨hold ▸ hmul10, hold ▸ hdist, ?_⟩
  rw [hold, hpv]
  rw [hpv] at hdist
  have hlow : (price : ℚ) * markup.val - 5 ≤
      (decRoundTens (decMul product.price_kgs markup)).val := by
    have := abs_le.mp hdist
    linarith [this.1]
  have hmarkup : (price : ℚ) * (13 / 10) ≤ (price : ℚ) * markup.val :=
    mul_le_mul_of_nonneg_left hm1 (by linarith)
  linarith

/-- Witness for `C2_old_price_amended` at `price_kgs = 49`, markup `1.4`
(old price `70`). -/
theorem C2_old_price_amended_witness :
    ∃ k : ℤ,
      (enhance_product sampleProduct49 ⟨14, -1⟩).old_price_kgs.val = 10 * (k : ℚ) := by
  refine (C2_old_price_amended sampleProduct49 ⟨14, -1⟩ 49 rfl (by norm_num) ?_ ?_ ?_).1
  · norm_num [Dec.val]
  · norm_num [Dec.val]
  · rw [show decMul sampleProduct49.price_kgs ⟨14, -1⟩ =
        ⟨6860000000000000000000000000, -26⟩ from by decide]
    rw [show sampleProduct49.price_kgs = ⟨49, 0⟩ from rfl]
    norm_num [Dec.val]

/-! ## Stage 3 filtering (claim C3)

`DailyPipeline._filter_products` (daily_pipeline.py lines 702-712) filters by
the two floors, sorts by `discount * sales_count` descending (Python
`list.sort(key=..., reverse=True)` is stable, as is `List.mergeSort`), and
truncates.  `ProductFilter.filter` / `_balance_sources`
(product_filter.py lines 140-258) implement the per-source balancing. -/

/-- Profitability comparator used by the pipeline sort, descending. -/
def profitGe (a b : Product) : Bool :=
  decide (b.discount * b.sales_count ≤ a.discount * a.sales_count)

/-- `DailyPipeline._filter_products` on the product list: floor filters, then
a stable descending sort by `discount * sales_count`, then `[:top_limit]`. -/
def dailyFilterProducts (minDiscount : ℤ) (minRating : ℚ) (topLimit : ℕ)
    (products : List Product) : List Product :=
  let filtered := products.filter
    (fun p => decide (minDiscount ≤ p.discount) && decide (minRating ≤ p.rating))
  ((filtered.mergeSort profitGe).take topLimit)

/-- Raw-product comparator `discount * sales_count` descending. -/
def rawProfitGe (a b : RawProduct) : Bool :=
  decide (b.discount * b.sales_count ≤ a.discount * a.sales_count)

/-- Raw-product comparator `sales_count` descending (used for sources with no
discount data). -/
def rawSalesGe (a b : RawProduct) : Bool :=
  decide (b.sales_count ≤ a.sales_count)

/-- The distinct `source` keys of the products, in first-occurrence order
(Python dicts preserve insertion order). -/
def sourcesInOrder (products : List RawProduct) : List String :=
  products.foldl (fun acc p => if p.source ∈ acc then acc else acc ++ [p.source]) []

/-- `ProductFilter._balance_sources`: group by source; per source waive the
discount floor when no product has a positive discount, always apply the
rating floor, sort by `discount * sales_count` (or by `sales_count` alone
without discount data) and take `max 1 (top_limit // num_sources)`. -/
def balance_sources (minDiscount : ℤ) (minRating : ℚ) (topLimit : ℕ)
    (products : List RawProduct) : List RawProduct :=
  let sources := sourcesInOrder products
  if sources.length = 0 then []
  else
    let per_source_limit := max 1 (topLimit / sources.length)
    (sources.map (fun src =>
      let source_products := products.filter (fun p => p.source == src)
      let has_discount_data := source_products.any (fun p => decide (0 < p.discount))
      let filtered :=
        if has_discount_data && decide (0 < minDiscount) then
          source_products.filter (fun p => decide (minDiscount ≤ p.discount))
        else source_products
      let filtered2 := filtered.filter (fun p => decide (minRating ≤ p.rating))
      let sorted :=
        if has_discount_data then filtered2.mergeSort rawProfitGe
        else filtered2.mergeSort rawSalesGe
      sorted.take per_source_limit)).flatten

/-- `ProductFilter.filter`: `_balance_sources`, then a global descending
profitability sort, then the top-N cut. -/
def product_filter_filter (minDiscount : ℤ) (minRating : ℚ) (topLimit : ℕ)
    (products : List RawProduct) : List RawProduct :=
  ((balance_sources minDiscount minRating topLimit products).mergeSort
    rawProfitGe).take topLimit

/-- A Taobao product with no marketplace discount but a perfect rating. -/
def sampleTaobao : Product :=
  { id := "tb1", title := "Чехол", price_cny := ⟨35, 0⟩, price_kgs := ⟨499, 0⟩,
    image_url := "https://img.example/tb1.jpg", rating := 5, discount := 0,
    sales_count := 7, source := "taobao" }

/-- The same product as a `RawProduct` for `ProductFilter.filter`. -/
def sampleTaobaoRaw : RawProduct :=
  { id := "tb1", title := "Чехол", price_cny := ⟨35, 0⟩,
    image_url := "https://img.example/tb1.jpg", rating := 5, discount := 0,
    sales_count := 7, source := "taobao" }

/-- **C3, counterexample.**  With `min_discount = 40`, `min_rating = 0`, a
lone Taobao product with `discount = 0` and rating `5`: its source has no
positive discount in the run, so by the claim the discount floor is waived
and the product retained; the pipeline's Stage 3 (`_filter_products`) instead
applies the floor unconditionally and drops it.  `ProductFilter.filter` —
which the pipeline does not execute — does keep it. -/
theorem C3_pipeline_filter_counterexample :
    dailyFilterProducts 40 0 10 [sampleTaobao] = [] ∧
    sampleTaobao.source = "taobao" ∧ sampleTaobao.discount = 0 ∧
    (0 : ℚ) ≤ sampleTaobao.rating ∧
    product_filter_filter 40 0 10 [sampleTaobaoRaw] = [sampleTaobaoRaw] := by
  refine ⟨?_, rfl, rfl, by norm_num [sampleTaobao], ?_⟩
  · simp [dailyFilterProducts, sampleTaobao]
  · simp [product_filter_filter, balance_sources, sourcesInOrder, sampleTaobaoRaw]

/-- **C3, amended.**  The Stage 3 filter the pipeline actually executes
treats every product uniformly regardless of source: the output contains at
most `top_limit` products, each passing both the discount and the rating
floor, is sorted by `discount * sales_count` descending, and is drawn from
the input.  (Source partitioning, equal shares and the per-source discount
waiver exist only in `ProductFilter.filter` / `_balance_sources`, which
Stage 3 does not invoke; see `C3_pipeline_filter_counterexample`.) -/
theorem C3_pipeline_filter_amended (minDiscount : ℤ) (minRating : ℚ)
    (topLimit : ℕ) (products : List Product) :
    (dailyFilterProducts minDiscount minRating topLimit products).length ≤ topLimit ∧
    (∀ p ∈ dailyFilterProducts minDiscount minRating topLimit products,
      minDiscount ≤ p.discount ∧ minRating ≤ p.rating ∧ p ∈ products) ∧
    (dailyFilterProducts minDiscount minRating topLimit products).Pairwise
      (fun a b => b.discount * b.sales_count ≤ a.discount * a.sales_count) := by
  unfold dailyFilterProducts
  refine ⟨?_, ?_, ?_⟩
  · simpa using List.length_take_le _ _
  · intro p hp
    have hp1 : p ∈ (products.filter
        (fun p => decide (minDiscount ≤ p.discount) &&
          decide (minRating ≤ p.rating))).mergeSort profitGe :=
      List.mem_of_mem_take hp
    have hp2 := List.mem_mergeSort.mp hp1
    have hp3 := List.mem_filter.mp hp2
    refine ⟨?_, ?_, hp3.1⟩
    · have := hp3.2
      simp only [Bool.and_eq_true, decide_eq_true_eq] at this
      exact this.1
    · have := hp3.2
      simp only [Bool.and_eq_true, decide_eq_true_eq] at this
      exact this.2
  · have hsorted : ((products.filter
        (fun p => decide (minDiscount ≤ p.discount) &&
          decide (minRating ≤ p.rating))).mergeSort profitGe).Pairwise
        (fun a b => profitGe a b) := by
      apply List.sorted_mergeSort
      · intro a b c hab hbc
        simp only [profitGe, decide_eq_true_eq] at *
        omega
      · intro a b
        simp only [profitGe, Bool.or_eq_true, decide_eq_true_eq]
        omega
    have htake := List.Pairwise.sublist (List.take_sublist topLimit _) hsorted
    exact htake.imp (fun h => by simpa [profitGe] using h)

/-! ## Stage 9 post status (claim C4) -/

/-- `PostStatus` enum from `src/autopost/db/models.py`. -/
inductive PostStatus where
  | pending
  | telegram_only
  | published
  | instagram_failed
  deriving DecidableEq, Repr

/-- Python truthiness of an `Optional[int]` (`None` and `0` are falsy). -/
def pyTruthyInt : Option ℤ → Bool
  | none => false
  | some n => decide (n ≠ 0)

/-- Python truthiness of an `Optional[str]` (`None` and `""` are falsy). -/
def pyTruthyStr : Option String → Bool
  | none => false
  | some s => decide (s ≠ "")

/-- The status derivation of `DailyPipeline._save_to_db`
(daily_pipeline.py lines 1105-1114). -/
def derive_post_status (telegram_id : Option ℤ) (instagram_id : Option String) :
    PostStatus :=
  if pyTruthyInt telegram_id && pyTruthyStr instagram_id then .published
  else if pyTruthyInt telegram_id then
    (if instagram_id = none then .instagram_failed else .telegram_only)
  else .pending

/-- `DailyPipeline._publish_instagram` when the Instagram service is not
configured (lines 1013-1020): returns `None` as the post id together with a
*successful* stage result tagged `"skipped"`. -/
def publish_instagram_skipped : Option String × Bool := (none, true)

/-- **C4, counterexample.**  When mirroring is skipped by configuration,
`_publish_instagram` hands `None` to `_save_to_db`, which derives
`INSTAGRAM_FAILED` (the repo's `MIRROR_FAILED`), not `TELEGRAM_ONLY`
(the claim's `BROADCAST_ONLY`). -/
theorem C4_skipped_mirror_counterexample :
    publish_instagram_skipped.2 = true ∧
    derive_post_status (some 123) publish_instagram_skipped.1 =
      PostStatus.instagram_failed ∧
    PostStatus.instagram_failed ≠ PostStatus.telegram_only := by
  exact ⟨rfl, rfl, by decide⟩

/-- **C4, amended.**  Stage 9 derives `PUBLISHED` when both identifiers are
truthy; `INSTAGRAM_FAILED` whenever broadcast succeeded and the mirror id is
`None` — whether the mirror failed or was skipped by configuration;
`TELEGRAM_ONLY` only in the unreachable case of a present-but-empty mirror
id; and `PENDING` when the broadcast id itself is falsy. -/
theorem C4_post_status_amended (t : Option ℤ) (i : Option String) :
    (pyTruthyInt t = true → pyTruthyStr i = true →
      derive_post_status t i = .published) ∧
    (pyTruthyInt t = true → i = none →
      derive_post_status t i = .instagram_failed) ∧
    (pyTruthyInt t = true → pyTruthyStr i = false → i ≠ none →
      derive_post_status t i = .telegram_only) ∧
    (pyTruthyInt t = false → derive_post_status t i = .pending) := by
  refine ⟨?_, ?_, ?_, ?_⟩
  · intro ht hi
    simp [derive_post_status, ht, hi]
  · intro ht hi
    subst hi
    simp [derive_post_status, ht, pyTruthyStr]
  · intro ht hi hne
    simp [derive_post_status, ht, hi, hne]
  · intro ht
    simp [derive_post_status, ht]

/-- Witness for `C4_post_status_amended`: a run with broadcast message id `7`
and a skipped mirror persists `INSTAGRAM_FAILED`. -/
theorem C4_post_status_amended_witness :
    derive_post_status (some 7) none = PostStatus.instagram_failed :=
  (C4_post_status_amended (some 7) none).2.1 rfl rfl

/-! ## Payment finalisation (claim C5)

`process_payment_success` from `src/handlers/payment.py` lines 204-278, with
the `payments` row it reads/writes (`src/services/database.py`).  The state
is the row for the given `payment_id` (`none` when absent); the second
component counts operator (admin) notifications sent by the invocation, and
the third is the returned boolean. -/

/-- A `payments` row (the columns `process_payment_success` touches). -/
structure PaymentRecord where
  status : String
  chat_id : ℤ
  message_id : Option ℤ
  amount_som : ℚ
  client_code : String
  paid_at : Option ℚ
  deriving DecidableEq, Repr

/-- `process_payment_success(bot, payment_id)`: missing row → `False`;
row already `PAID` → `True` with no side effects; otherwise update the row to
`PAID` with `paid_at = now`, delete the QR message and message the user
(best-effort), send one admin notification, return `True`. -/
def process_payment_success (now : ℚ) (db : Option PaymentRecord) :
    Option PaymentRecord × ℕ × Bool :=
  match db with
  | none => (none, 0, false)
  | some payment =>
    if payment.status = "PAID" then (some payment, 0, true)
    else (some { payment with status := "PAID", paid_at := some now }, 1, true)

/-- **C5.**  `finalise` is idempotent: when the stored record exists (with
the reachable-state invariant that a `PAID` row has `paid_at` set — rows are
created `PENDING` and only `process_payment_success` writes `PAID`), running
it twice leaves exactly the state one run produces (status `PAID`,
`paid_at` set), the second run returns success, and the two runs together
send at most one admin notification. -/
theorem C5_finalise_idempotent (db : Option PaymentRecord)
    (payment : PaymentRecord) (hdb : db = some payment)
    (hinv : payment.status = "PAID" → payment.paid_at ≠ none)
    (now₁ now₂ : ℚ) :
    (process_payment_success now₂ (process_payment_success now₁ db).1).1 =
      (process_payment_success now₁ db).1 ∧
    (process_payment_success now₂ (process_payment_success now₁ db).1).2.2 = true ∧
    (process_payment_success now₁ db).2.1 +
      (process_payment_success now₂ (process_payment_success now₁ db).1).2.1 ≤ 1 ∧
    ∃ p', (process_payment_success now₁ db).1 = some p' ∧
      p'.status = "PAID" ∧ p'.paid_at ≠ none := by
  subst hdb
  by_cases h : payment.status = "PAID"
  · refine ⟨?_, ?_, ?_, payment, ?_⟩ <;>
      simp [process_payment_success, h, hinv h]
  · refine ⟨?_, ?_, ?_, ?_⟩ <;>
      simp [process_payment_success, h]

/-- Witness for `C5_finalise_idempotent`: a `PENDING` row finalised twice. -/
theorem C5_finalise_idempotent_witness :
    (process_payment_success 2
      (process_payment_success 1
        (some ⟨"PENDING", 5002, some 41, 350, "TE-1", none⟩)).1).2.2 = true := by
  refine (C5_finalise_idempotent _ ⟨"PENDING", 5002, some 41, 350, "TE-1", none⟩
    rfl ?_ 1 2).2.1
  intro h
  exact absurd h (by decide)

/-! ## Payment status decoding (claim C10)

`ODengiAPI.check_status` (`src/services/payment.py` lines 325-350) and the
`PaymentStatus` `IntEnum` (lines 25-33). -/

/-- `PaymentStatus` codes (`status_pay`). -/
inductive PaymentStatus where
  | pending
  | paid
  | cancelled
  | expired
  | processing
  | partial_refund
  | full_refund
  deriving DecidableEq, Repr

/-- The integer value of each `PaymentStatus` member. -/
def PaymentStatus.code : PaymentStatus → ℤ
  | .pending => 0
  | .paid => 1
  | .cancelled => -1
  | .expired => -2
  | .processing => 2
  | .partial_refund => 3
  | .full_refund => 4

/-- `PaymentStatus(int(status_pay))`: `none` models the `ValueError` branch
(which logs a warning and leaves the decoded status `None`). -/
def paymentStatusOfCode (n : ℤ) : Option PaymentStatus :=
  if n = 0 then some .pending
  else if n = 1 then some .paid
  else if n = -1 then some .cancelled
  else if n = -2 then some .expired
  else if n = 2 then some .processing
  else if n = 3 then some .partial_refund
  else if n = 4 then some .full_refund
  else none

/-- Python truthiness of the decoded status: an `IntEnum` member is truthy
iff its integer value is nonzero, so `PENDING` (0) is falsy. -/
def statusTruthy : Option PaymentStatus → Bool
  | none => false
  | some s => decide (s.code ≠ 0)

/-- ASCII model of Python `str.lower()` (every status string involved is
ASCII). -/
def lowerChar (c : Char) : Char :=
  if 'A' ≤ c ∧ c ≤ 'Z' then Char.ofNat (c.toNat + 32) else c

/-- ASCII model of Python `str.lower()`. -/
def pyLower (s : String) : String := String.mk (s.data.map lowerChar)

/-- The `status_map` lookup on the lowercased string status. -/
def statusMapLookup (s : String) : Option PaymentStatus :=
  if s = "approved" then some .paid
  else if s = "paid" then some .paid
  else if s = "pending" then some .pending
  else if s = "cancelled" then some .cancelled
  else if s = "canceled" then some .cancelled
  else if s = "expired" then some .expired
  else if s = "processing" then some .processing
  else none

/-- The status decoding of `check_status`: try the numeric `status_pay`
first; then, if a string `status` is present *and the decoded status is
falsy*, replace it with the `status_map` lookup. -/
def decode_status (status_pay : Option ℤ) (status_string : Option String) :
    Option PaymentStatus :=
  let status₁ : Option PaymentStatus :=
    match status_pay with
    | none => none
    | some n => paymentStatusOfCode n
  if pyTruthyStr status_string && !(statusTruthy status₁) then
    match status_string with
    | some s => statusMapLookup (pyLower s)
    | none => status₁
  else status₁

theorem code_of_paymentStatusOfCode {n : ℤ} {st : PaymentStatus}
    (h : paymentStatusOfCode n = some st) : st.code = n := by
  unfold paymentStatusOfCode at h
  split_ifs at h <;>
    first
      | exact Option.noConfusion h
      | (obtain rfl := Option.some.inj h; simp_all [PaymentStatus.code])

/-- **C10.**  `status_pay = 0` does not take precedence over a recognised
string status: the decoded `PENDING` is falsy, so the string branch runs and
`{status_pay: 0, status: "approved"}` decodes to `PAID`; for any non-zero
recognised `status_pay` the numeric decoding wins and the string is
ignored. -/
theorem C10_pending_code_yields_to_string (n : ℤ) (s : String)
    (hrec : paymentStatusOfCode n ≠ none) (hnz : n ≠ 0) :
    decode_status (some 0) (some "approved") = some PaymentStatus.paid ∧
    decode_status (some n) (some s) = paymentStatusOfCode n := by
  constructor
  · decide
  · obtain ⟨st, hst⟩ := Option.ne_none_iff_exists'.mp hrec
    have hcode : st.code = n := code_of_paymentStatusOfCode hst
    have htruthy : statusTruthy (some st) = true := by
      simp [statusTruthy, hcode, hnz]
    unfold decode_status
    simp only [hst]
    simp [htruthy]

/-- Witness for `C10_pending_code_yields_to_string` at `status_pay = 1`,
`status = "pending"`: the numeric `PAID` wins over the string. -/
theorem C10_pending_code_yields_to_string_witness :
    decode_status (some 1) (some "pending") = paymentStatusOfCode 1 :=
  (C10_pending_code_yields_to_string 1 "pending" (by decide) (by decide)).2

/-! ## Stage 7 captions and the media-group guard (claim C7)

The caption construction of `DailyPipeline._publish_telegram`
(daily_pipeline.py lines 935-956) and the size guard of
`TelegramService.send_media_group` (telegram_service.py lines 272-278,
`MAX_MEDIA_GROUP_SIZE = 10`).  Python `len` on `str` counts code points, as
does `String.length`. -/

/-- The deterministic price block
`f"\n\n💰 <s>{old} сом</s> → <b>{new} сом</b>\n🔥 Экономия: {savings} сом!"`
with `savings = old - new`. -/
def price_block (old_price new_price : ℤ) : String :=
  "\n\n💰 <s>" ++ toString old_price ++ " сом</s> → <b>" ++ toString new_price ++
    " сом</b>\n🔥 Экономия: " ++ toString (old_price - new_price) ++ " сом!"

/-- Python slicing `s[:n]`, including the negative-index form. -/
def pySliceTo (s : String) (n : ℤ) : String :=
  String.mk (s.data.take (if 0 ≤ n then n.toNat else s.length - (-n).toNat))

/-- The per-image caption of Stage 7: description plus price block; when the
result exceeds 1024 code units, the description is cut to
`1024 - len(price_block) - 10` and an ellipsis appended, then the price block
is re-attached. -/
def build_caption (description : String) (old_price new_price : ℤ) : String :=
  let pb := price_block old_price new_price
  let caption := description ++ pb
  if 1024 < caption.length then
    (pySliceTo description (1024 - (pb.length : ℤ) - 10) ++ "...") ++ pb
  else caption

/-- The size guard of `TelegramService.send_media_group`: an empty list and a
list of more than `MAX_MEDIA_GROUP_SIZE = 10` images both fail before
anything is sent. -/
def send_media_group_check (images : List String) : Except String (List String) :=
  if images.isEmpty then Except.error "No images provided for media group"
  else if 10 < images.length then Except.error "Too many images"
  else Except.ok images

/-- **C7.**  Whenever the price block leaves room for the ellipsis margin
(`len(price_block) + 10 ≤ 1024` — true for every realistic price), the built
caption is at most 1024 code units and ends with the untruncated price block;
and a media group accepted by `send_media_group` has between 1 and 10
items. -/
theorem C7_caption_and_media_group_bounds :
    (∀ (description : String) (old_price new_price : ℤ),
      (price_block old_price new_price).length + 10 ≤ 1024 →
      (build_caption description old_price new_price).length ≤ 1024 ∧
      ∃ pre, build_caption description old_price new_price =
        pre ++ price_block old_price new_price) ∧
    (∀ images sent : List String, send_media_group_check images = Except.ok sent →
      1 ≤ sent.length ∧ sent.length ≤ 10) := by
  constructor
  · intro description old_price new_price hpb
    simp only [build_caption]
    split_ifs with hlong
    · constructor
      · have hslice : (pySliceTo description (1024 - ((price_block old_price
            new_price).length : ℤ) - 10)).length ≤
            1024 - (price_block old_price new_price).length - 10 := by
          unfold pySliceTo
          have : (String.mk (description.data.take
              ((1024 - ((price_block old_price new_price).length : ℤ) -
                10).toNat))).length = (description.data.take
              ((1024 - ((price_block old_price new_price).length : ℤ) -
                10).toNat)).length := rfl
          rw [if_pos (by omega)]
          rw [this, List.length_take]
          omega
        rw [String.length_append, String.length_append]
        rw [show ("..." : String).length = 3 from rfl]
        omega
      · exact ⟨pySliceTo description (1024 - ((price_block old_price
          new_price).length : ℤ) - 10) ++ "...", rfl⟩
    · constructor
      · rw [String.length_append] at hlong ⊢
        omega
      · exact ⟨description, rfl⟩
  · intro images sent h
    unfold send_media_group_check at h
    split_ifs at h with h1 h2
    obtain rfl := Except.ok.inj h
    have hne : images ≠ [] := by simpa [List.isEmpty_iff] using h1
    exact ⟨List.length_pos.mpr hne, by omega⟩

/-- Witness for `C7_caption_and_media_group_bounds`: the caption for prices
`70 → 49` with a short description, and a three-image media group. -/
theorem C7_caption_and_media_group_bounds_witness :
    ((build_caption "Горячий товар" 70 49).length ≤ 1024 ∧
      ∃ pre, build_caption "Горячий товар" 70 49 = pre ++ price_block 70 49) ∧
    (1 ≤ (["a.jpg", "b.jpg", "c.jpg"] : List String).length ∧
      (["a.jpg", "b.jpg", "c.jpg"] : List String).length ≤ 10) :=
  ⟨C7_caption_and_media_group_bounds.1 "Горячий товар" 70 49 (by decide),
   C7_caption_and_media_group_bounds.2 ["a.jpg", "b.jpg", "c.jpg"]
     ["a.jpg", "b.jpg", "c.jpg"] rfl⟩

/-! ## Currency lookup (claim C8)

`CurrencyService.get_rate` (currency.py lines 81-142): in-memory TTL cache,
then the external API (writing cache and, when a repository is wired, a new
`ExchangeRate` row), then the repository's latest rate (also written to the
cache).  `DailyPipeline._convert_prices` consumes the result; its body never
touches `_fallbacks_used`, although `FallbackType.CURRENCY_DB` exists. -/

/-- The three rate sources for one `(from, to)` pair at call time: the live
cache entry, the external API outcome (`none` = request failed), the latest
persisted row, and whether a repository is wired. -/
structure CurrencyEnv where
  cache : Option Dec
  api : Option Dec
  db : Option Dec
  hasRepo : Bool
  deriving DecidableEq, Repr

/-- Outcome of `get_rate`: the `ServiceResult` payload, the cache entry after
the call, and whether `repository.save_rate` was invoked. -/
structure RateOutcome where
  result : Option Dec
  cacheAfter : Option Dec
  dbWritten : Bool
  deriving DecidableEq, Repr

/-- `CurrencyService.get_rate`. -/
def get_rate (env : CurrencyEnv) : RateOutcome :=
  match env.cache with
  | some r => ⟨some r, some r, false⟩
  | none =>
    match env.api with
    | some r => ⟨some r, some r, env.hasRepo⟩
    | none =>
      if env.hasRepo then
        match env.db with
        | some r => ⟨some r, some r, false⟩
        | none => ⟨none, none, false⟩
      else ⟨none, none, false⟩

/-- `FallbackType` enum (daily_pipeline.py lines 46-52). -/
inductive FallbackType where
  | pinduoduo_cached
  | currency_db
  | openai_template
  | instagram_skipped
  deriving DecidableEq, Repr

/-- `DailyPipeline._convert_prices`: fail the stage when `get_rate` fails,
else convert and enhance every product (`markups` are the sampled values).
The method body contains no `_fallbacks_used.append`, so the fallback list is
returned unchanged. -/
def convert_prices (env : CurrencyEnv) (raws : List RawProduct)
    (markups : List Dec) (fallbacks : List FallbackType) :
    List Product × Bool × List FallbackType :=
  match (get_rate env).result with
  | none => ([], false, fallbacks)
  | some rate =>
    ((raws.zip markups).map
      (fun pm => enhance_product (convert_product pm.1 rate) pm.2),
     true, fallbacks)

/-- **C8, counterexample** (spec scenario C).  Cache empty, external API
down, persisted rate `11.8`: Stage 2 succeeds and uses the persisted rate,
but the run's `fallbacks_used` does *not* record the currency fallback —
`FallbackType.CURRENCY_DB` is never appended anywhere. -/
theorem C8_fallback_recording_counterexample :
    (get_rate ⟨none, none, some ⟨118, -1⟩, true⟩).result = some ⟨118, -1⟩ ∧
    (convert_prices ⟨none, none, some ⟨118, -1⟩, true⟩ [] [] []).2.1 = true ∧
    (convert_prices ⟨none, none, some ⟨118, -1⟩, true⟩ [] [] []).2.2 = [] ∧
    FallbackType.currency_db ∉
      (convert_prices ⟨none, none, some ⟨118, -1⟩, true⟩ [] [] []).2.2 := by
  refine ⟨rfl, rfl, rfl, by simp [convert_prices, get_rate]⟩

/-- **C8, amended.**  The lookup order is cache, external API, persisted
rate; a successful external fetch writes both the cache and (when a
repository is wired) a new persistent row; a DB fallback also refreshes the
cache; and Stage 2 returns `fallbacks_used` unchanged, so the currency
fallback is never recorded in it. -/
theorem C8_currency_lookup_amended (env : CurrencyEnv) (r : Dec) :
    (env.cache = some r → get_rate env = ⟨some r, some r, false⟩) ∧
    (env.cache = none → env.api = some r →
      get_rate env = ⟨some r, some r, env.hasRepo⟩) ∧
    (env.cache = none → env.api = none → env.hasRepo = true →
      env.db = some r → get_rate env = ⟨some r, some r, false⟩) ∧
    (env.cache = none → env.api = none → env.hasRepo = true → env.db = none →
      get_rate env = ⟨none, none, false⟩) ∧
    (∀ raws markups fallbacks,
      (convert_prices env raws markups fallbacks).2.2 = fallbacks) := by
  refine ⟨?_, ?_, ?_, ?_, ?_⟩
  · intro hc
    simp [get_rate, hc]
  · intro hc ha
    simp [get_rate, hc, ha]
  · intro hc ha hr hd
    simp [get_rate, hc, ha, hr, hd]
  · intro hc ha hr hd
    simp [get_rate, hc, ha, hr, hd]
  · intro raws markups fallbacks
    unfold convert_prices
    cases (get_rate env).result <;> rfl

/-- Witness for `C8_currency_lookup_amended` at scenario C: cache empty, API
down, persisted `11.8`. -/
theorem C8_currency_lookup_amended_witness :
    get_rate ⟨none, none, some ⟨118, -1⟩, true⟩ =
      ⟨some ⟨118, -1⟩, some ⟨118, -1⟩, false⟩ :=
  (C8_currency_lookup_amended ⟨none, none, some ⟨118, -1⟩, true⟩
    ⟨118, -1⟩).2.2.1 rfl rfl rfl rfl

/-! ## Webhook signature (claim C6)

`ODengiAPI._generate_hash` and `verify_callback_signature`
(`src/services/payment.py` lines 110-126 and 459-493).  The library calls
`hmac.new(password.encode("utf-8"), json_string.encode("utf-8"),
hashlib.md5).hexdigest()` and `hmac.compare_digest`; HMAC (RFC 2104: keys
longer than the 64-byte block are hashed first, shorter keys zero-padded) and
MD5 (RFC 1321) are implemented below over byte lists.  The compact JSON
serialisation of the payload minus its `hash` field is abstracted to the byte
string it produces (`fields`). -/

/-- Truncate to a 32-bit word. -/
def w32 (n : ℕ) : ℕ := n % 4294967296

/-- 32-bit modular addition. -/
def wadd (a b : ℕ) : ℕ := w32 (a + b)

/-- 32-bit complement (operand `< 2^32`). -/
def wnot (a : ℕ) : ℕ := a ^^^ 4294967295

/-- 32-bit left rotation (operand `< 2^32`, `0 < s < 32`). -/
def rotl (x s : ℕ) : ℕ := w32 ((x <<< s) ||| (x >>> (32 - s)))

/-- MD5 sine-derived constants `K[i] = floor(2^32 * |sin(i+1)|)`. -/
def MD5_K : List ℕ :=
  [3614090360, 3905402710, 606105819, 3250441966,
   4118548399, 1200080426, 2821735955, 4249261313,
   1770035416, 2336552879, 4294925233, 2304563134,
   1804603682, 4254626195, 2792965006, 1236535329,
   4129170786, 3225465664, 643717713, 3921069994,
   3593408605, 38016083, 3634488961, 3889429448,
   568446438, 3275163606, 4107603335, 1163531501,
   2850285829, 4243563512, 1735328473, 2368359562,
   4294588738, 2272392833, 1839030562, 4259657740,
   2763975236, 1272893353, 4139469664, 3200236656,
   681279174, 3936430074, 3572445317, 76029189,
   3654602809, 3873151461, 530742520, 3299628645,
   4096336452, 1126891415, 2878612391, 4237533241,
   1700485571, 2399980690, 4293915773, 2240044497,
   1873313359, 4264355552, 2734768916, 1309151649,
   4149444226, 3174756917, 718787259, 3951481745]

/-- MD5 per-step left-rotation amounts. -/
def MD5_S : List ℕ :=
  [7, 12, 17, 22, 7, 12, 17, 22, 7, 12, 17, 22, 7, 12, 17, 22,
   5, 9, 14, 20, 5, 9, 14, 20, 5, 9, 14, 20, 5, 9, 14, 20,
   4, 11, 16, 23, 4, 11, 16, 23, 4, 11, 16, 23, 4, 11, 16, 23,
   6, 10, 15, 21, 6, 10, 15, 21, 6, 10, 15, 21, 6, 10, 15, 21]

/-- Little-endian 64-bit encoding of `n mod 2^64`, as 8 bytes. -/
def le64 (n : ℕ) : List ℕ :=
  (List.range 8).map (fun i => (n >>> (8 * i)) % 256)

/-- Little-endian 32-bit encoding, as 4 bytes. -/
def le32 (n : ℕ) : List ℕ :=
  (List.range 4).map (fun i => (n >>> (8 * i)) % 256)

/-- MD5 padding: `0x80`, zeros to 56 mod 64, then the bit length in 64-bit
little-endian. -/
def md5Pad (msg : List ℕ) : List ℕ :=
  let len := msg.length
  let zeros := (120 - ((len + 1) % 64)) % 64
  msg ++ [128] ++ List.replicate zeros 0 ++ le64 (len * 8)

/-- Split into 64-byte blocks (fuel-driven; `fuel = length` suffices). -/
def chunks64Aux {α : Type} : ℕ → List α → List (List α)
  | 0, _ => []
  | fuel + 1, l => if l.isEmpty then [] else l.take 64 :: chunks64Aux fuel (l.drop 64)

/-- Split into 64-byte blocks. -/
def chunks64 {α : Type} (l : List α) : List (List α) := chunks64Aux l.length l

/-- The `j`-th little-endian 32-bit word of a 64-byte block. -/
def wordAt (block : List ℕ) (j : ℕ) : ℕ :=
  block.getD (4 * j) 0 + 256 * block.getD (4 * j + 1) 0 +
    65536 * block.getD (4 * j + 2) 0 + 16777216 * block.getD (4 * j + 3) 0

/-- One MD5 step of the 64-step compression loop. -/
def md5Step (block : List ℕ) (st : ℕ × ℕ × ℕ × ℕ) (i : ℕ) : ℕ × ℕ × ℕ × ℕ :=
  let a := st.1
  let b := st.2.1
  let c := st.2.2.1
  let d := st.2.2.2
  let fg : ℕ × ℕ :=
    if i < 16 then ((b &&& c) ||| (wnot b &&& d), i)
    else if i < 32 then ((b &&& d) ||| (c &&& wnot d), (5 * i + 1) % 16)
    else if i < 48 then (b ^^^ c ^^^ d, (3 * i + 5) % 16)
    else (c ^^^ (b ||| wnot d), (7 * i) % 16)
  let tmp := wadd (wadd (wadd a fg.1) (MD5_K.getD i 0)) (wordAt block fg.2)
  (d, wadd b (rotl tmp (MD5_S.getD i 0)), b, c)

/-- MD5 compression of one block onto the running state. -/
def md5Block (st : ℕ × ℕ × ℕ × ℕ) (block : List ℕ) : ℕ × ℕ × ℕ × ℕ :=
  let r := (List.range 64).foldl (md5Step block) st
  (wadd st.1 r.1, wadd st.2.1 r.2.1, wadd st.2.2.1 r.2.2.1, wadd st.2.2.2 r.2.2.2)

/-- MD5 of a byte string, as 16 bytes. -/
def md5Bytes (msg : List ℕ) : List ℕ :=
  let st := (chunks64 (md5Pad msg)).foldl md5Block
    (1732584193, 4023233417, 2562383102, 271733878)
  le32 st.1 ++ le32 st.2.1 ++ le32 st.2.2.1 ++ le32 st.2.2.2

/-- Lowercase hex digit. -/
def hexDigit (n : ℕ) : Char :=
  if n < 10 then Char.ofNat (48 + n) else Char.ofNat (87 + n)

/-- Lowercase hex string of a byte list (`hexdigest`). -/
def toHex (bytes : List ℕ) : String :=
  String.mk ((bytes.map (fun b => [hexDigit (b / 16), hexDigit (b % 16)])).flatten)

/-- RFC 2104 HMAC-MD5: keys longer than the 64-byte block are hashed, then
zero-padded to 64 bytes; inner pad `0x36`, outer pad `0x5c`. -/
def hmacMd5 (key msg : List ℕ) : List ℕ :=
  let k1 := if 64 < key.length then md5Bytes key else key
  let k0 := k1 ++ List.replicate (64 - k1.length) 0
  md5Bytes ((k0.map (fun b => b ^^^ 92)) ++
    md5Bytes ((k0.map (fun b => b ^^^ 54)) ++ msg))

/-- `ODengiAPI._generate_hash`: hex HMAC-MD5 of the compact serialisation
under the configured password. -/
def generate_hash (password payload : List ℕ) : String :=
  toHex (hmacMd5 password payload)

/-- A webhook payload: the byte string of its compact JSON serialisation
minus the `hash` field, plus the `hash` field itself when present. -/
structure Callback where
  fields : List ℕ
  hash : Option String
  deriving DecidableEq, Repr

/-- Signing a payload: attach `hash = _generate_hash(payload)`. -/
def sign_callback (password : List ℕ) (c : Callback) : Callback :=
  { c with hash := some (generate_hash password c.fields) }

/-- `ODengiAPI.verify_callback_signature`: no `hash` field → warn and accept
(legacy); otherwise recompute the HMAC over the payload minus `hash` and
compare (`hmac.compare_digest`, i.e. equality). -/
def verify_callback_signature (password : List ℕ) (c : Callback) : Bool :=
  match c.hash with
  | none => true
  | some h => h == generate_hash password c.fields

theorem hmacMd5_key_pad_eq (key key' msg : List ℕ) (h1 : key.length ≤ 64)
    (h2 : key'.length ≤ 64)
    (h : key ++ List.replicate (64 - key.length) 0 =
      key' ++ List.replicate (64 - key'.length) 0) :
    hmacMd5 key msg = hmacMd5 key' msg := by
  simp only [hmacMd5]
  rw [if_neg (by omega : ¬ 64 < key.length),
    if_neg (by omega : ¬ 64 < key'.length), h]

/-- The serialised bytes of `{"invoice_id":"A","status_pay":1}` minus its
hash field (the concrete payload of spec scenario F). -/
def samplePayload : Callback :=
  { fields := "\x7b\"invoice_id\":\"A\",\"status_pay\":1\x7d".data.map Char.toNat,
    hash := none }

/-- **C6, counterexample.**  The secrets `"k"` (bytes `[107]`) and
`"k\x00"` (bytes `[107, 0]`) are different, yet HMAC zero-pads both to the
same 64-byte key, so a payload signed under `"k"` verifies under `"k\x00"`:
`verify(sign(P, K), K') = false` fails for this `K' ≠ K`. -/
theorem C6_wrong_key_counterexample :
    ([107] : List ℕ) ≠ [107, 0] ∧
    verify_callback_signature [107, 0] (sign_callback [107] samplePayload) =
      true := by
  refine ⟨by decide, ?_⟩
  have hkey : hmacMd5 [107, 0] samplePayload.fields =
      hmacMd5 [107] samplePayload.fields := by
    apply hmacMd5_key_pad_eq _ _ _ (by decide) (by decide)
    decide
  have hred : verify_callback_signature [107, 0] (sign_callback [107] samplePayload) =
      (generate_hash [107] samplePayload.fields ==
        generate_hash [107, 0] samplePayload.fields) := rfl
  rw [hred, generate_hash, generate_hash, hkey, beq_self_eq_true]

/-- **C6, amended.**  Signing round-trips under the same secret and a
missing `hash` is accepted (legacy); but verification under a different
secret `K'` is *not* always false: it succeeds exactly when the HMAC-MD5 of
the payload under `K'` coincides with that under `K` — which happens for
distinct keys equal after HMAC key preprocessing, such as `K` and
`K ++ [0]` (`C6_wrong_key_counterexample`). -/
theorem C6_signature_roundtrip_amended (password : List ℕ) (c : Callback) :
    verify_callback_signature password (sign_callback password c) = true ∧
    verify_callback_signature password { c with hash := none } = true ∧
    (∀ password' : List ℕ,
      (verify_callback_signature password' (sign_callback password c) = true ↔
        generate_hash password' c.fields = generate_hash password c.fields)) := by
  refine ⟨?_, rfl, ?_⟩
  · have hred : verify_callback_signature password (sign_callback password c) =
        (generate_hash password c.fields == generate_hash password c.fields) :=
      rfl
    rw [hred, beq_self_eq_true]
  · intro password'
    have hred : verify_callback_signature password' (sign_callback password c) =
        (generate_hash password c.fields == generate_hash password' c.fields) :=
      rfl
    rw [hred, beq_iff_eq, eq_comm]

end Tulpar
